import Mathlib

/-!
Verification of the `kornia.x` training loop (`src/kornia/x/trainer.py`)
against its natural-language specification.

The Python code is shallowly embedded:

* `callbacks_whitelist`, the callback-binding loop of `Trainer.__init__`
  (lines 76-80) and the whole constructor (lines 50-85) become executable
  Lean functions that return `Except` values (Python exceptions) together
  with the list of side-effecting actions performed (`InitAction`), so that
  "raises before doing X" is a statement about the action list.
* The control flow of `Trainer.fit` (lines 120-141) and
  `Trainer.fit_epoch` (lines 94-118) is embedded as a trace semantics: each
  statement of the Python loop emits an `Event` carrying the epoch (and,
  for the inner loop, batch) index, and `fitTrace` is the list of events
  the loop executes.  The user-overridable `terminate` stage is a parameter
  `term : Nat → Option TrainerState` giving, per epoch, the Python return
  value of `self.terminate(...)` (`none` models Python `None`, the default).
* The default hook implementations (lines 143-156) become Lean functions.
* `AverageMeter` (imported from `kornia.metrics`, not part of the sources)
  and `TrainerState` / `Configuration` (imported from `kornia.x.utils`, not
  part of the sources) are modelled from the spec.
-/

/-- Modelled from the spec: the lifecycle state signal of `kornia/x/utils.py`
(not included in the sources), "a small enumeration indicating whether
training should continue or stop, returned by a user-overridable stage";
`Trainer.fit` stops only on `TERMINATE`. -/
inductive TrainerState : Type where
  | TRAINING : TrainerState
  | TERMINATE : TrainerState
  deriving DecidableEq, Repr

/-- `callbacks_whitelist` of `trainer.py` lines 19-21. -/
def callbacks_whitelist : List String :=
  ["preprocess", "augmentations", "evaluate", "fit", "checkpoint", "terminate"]

/-- The Python exceptions `Trainer.__init__` can raise (lines 62-64, 79). -/
inductive PyError : Type where
  | moduleNotFoundError : String → PyError
  | valueError : String → PyError
  deriving DecidableEq, Repr

/-- The observable actions of `Trainer.__init__` (lines 65-80): the
`accelerator.prepare`/`criterion.to` calls and each `setattr` that binds a
caller-supplied hook. -/
inductive InitAction : Type where
  | prepareModel : InitAction
  | prepareTrainDataloader : InitAction
  | prepareValidDataloader : InitAction
  | criterionTo : InitAction
  | prepareOptimizer : InitAction
  | setattrHook : String → InitAction
  deriving DecidableEq, Repr

/-- The callback-configuration loop of `Trainer.__init__` (lines 76-80):
iterate over the `callbacks` dictionary items in order; a key outside
`callbacks_whitelist` raises `ValueError("Not supported: ...")`, otherwise
`setattr(self, fn_name, fn)` binds the hook.  The object's attributes are an
association list in which the most recent `setattr` comes first; the actions
record each binding performed. -/
def configureCallbacks {κ : Type} (attrs : List (String × κ)) :
    List (String × κ) → Except String (List (String × κ)) × List InitAction
  | [] => (Except.ok attrs, [])
  | (n, f) :: rest =>
      if n ∈ callbacks_whitelist then
        let r := configureCallbacks ((n, f) :: attrs) rest
        (r.1, InitAction.setattrHook n :: r.2)
      else
        (Except.error ("Not supported: " ++ n ++ "."), [])

/-- `Trainer.__init__` (lines 50-85): when the `accelerate` import failed
(`Accelerator is None`) it raises `ModuleNotFoundError` at once; otherwise it
prepares the model, the two dataloaders, the criterion and the optimizer, and
then binds the callbacks, wrapping a bad key's message in `ValueError`.  The
result is the bound hook attributes (or the exception) together with the
actions performed before returning or raising. -/
def trainerInit {κ : Type} (acceleratorAvailable : Bool) (cbs : List (String × κ)) :
    Except PyError (List (String × κ)) × List InitAction :=
  if acceleratorAvailable then
    let pre : List InitAction :=
      [InitAction.prepareModel, InitAction.prepareTrainDataloader,
       InitAction.prepareValidDataloader, InitAction.criterionTo,
       InitAction.prepareOptimizer]
    match configureCallbacks [] cbs with
    | (Except.ok attrs, acts) => (Except.ok attrs, pre ++ acts)
    | (Except.error m, acts) => (Except.error (PyError.valueError m), pre ++ acts)
  else
    (Except.error (PyError.moduleNotFoundError
      "accelerate library is not installed: pip install kornia[x]"), [])

/-- Python attribute lookup on the trainer object: the most recently
`setattr`-bound value for `name`, falling back to the class's default
implementation `deflt` when no callback was bound under that name. -/
def getattrD {κ : Type} (attrs : List (String × κ)) (name : String) (deflt : κ) : κ :=
  match attrs.find? (fun p => p.1 == name) with
  | some p => p.2
  | none => deflt

/-- Default `Trainer.preprocess` (lines 146-147): `return x`. -/
def Trainer.preprocess {α : Type} (x : α) : α := x

/-- Default `Trainer.augmentations` (lines 149-150): `return x`. -/
def Trainer.augmentations {α : Type} (x : α) : α := x

/-- Default `Trainer.evaluate` (lines 143-144): body `...`, returns `None`. -/
def Trainer.evaluate {ω : Type} : Option ω := none

/-- Default `Trainer.checkpoint` (lines 152-153): body `...`, returns `None`. -/
def Trainer.checkpoint {μ ω : Type} (_model : μ) (_epoch : Nat)
    (_valid_stats : Option ω) : Option Unit := none

/-- Default `Trainer.terminate` (lines 155-156): body `...`, returns `None`. -/
def Trainer.terminate {μ ω : Type} (_model : μ) (_epoch : Nat)
    (_valid_stats : Option ω) : Option TrainerState := none

/-- One event of the training loop's execution trace: the lifecycle stages of
`Trainer.fit` / `Trainer.fit_epoch`, tagged with the 0-based epoch (and batch)
index at which they run. -/
inductive Event : Type where
  | zeroGrad : Nat → Nat → Event
  | preprocessStage : Nat → Nat → Event
  | augmentationsStage : Nat → Nat → Event
  | modelForward : Nat → Nat → Event
  | criterionLoss : Nat → Nat → Event
  | backwardStage : Nat → Nat → Event
  | optimizerStep : Nat → Nat → Event
  | lossesUpdate : Nat → Nat → Event
  | evaluateStage : Nat → Event
  | checkpointStage : Nat → Event
  | terminateCheck : Nat → Event
  | schedulerStep : Nat → Event
  deriving DecidableEq, Repr

/-- The epoch index an event belongs to. -/
def Event.epoch : Event → Nat
  | Event.zeroGrad e _ => e
  | Event.preprocessStage e _ => e
  | Event.augmentationsStage e _ => e
  | Event.modelForward e _ => e
  | Event.criterionLoss e _ => e
  | Event.backwardStage e _ => e
  | Event.optimizerStep e _ => e
  | Event.lossesUpdate e _ => e
  | Event.evaluateStage e => e
  | Event.checkpointStage e => e
  | Event.terminateCheck e => e
  | Event.schedulerStep e => e

/-- Whether an event is a `scheduler.step()` call. -/
def Event.isSchedulerStep : Event → Bool
  | Event.schedulerStep _ => true
  | _ => false

/-- The statements executed for one training batch in the body of the
`for sample_id, sample in enumerate(self.train_dataloader)` loop of
`Trainer.fit_epoch` (lines 98-111): `optimizer.zero_grad()`, then
`self.preprocess`, `self.augmentations`, the model forward pass,
`self.criterion`, `self.backward`, `optimizer.step()` and finally
`losses.update(...)`. -/
def batchEvents (epoch batch : Nat) : List Event :=
  [Event.zeroGrad epoch batch, Event.preprocessStage epoch batch,
   Event.augmentationsStage epoch batch, Event.modelForward epoch batch,
   Event.criterionLoss epoch batch, Event.backwardStage epoch batch,
   Event.optimizerStep epoch batch, Event.lossesUpdate epoch batch]

/-- The trace of `Trainer.fit_epoch(epoch)` (lines 94-118) on a training
dataloader that yields `numBatches` batches: the batch bodies in dataloader
order. -/
def fit_epochTrace (epoch : Nat) : Nat → List Event
  | 0 => []
  | Nat.succ b => fit_epochTrace epoch b ++ batchEvents epoch b

/-- The trace of the remaining iterations of the `for epoch in
range(self.num_epochs)` loop of `Trainer.fit` (lines 120-141), starting at
`epoch` with `rem` iterations left: each iteration runs `fit_epoch`, then
`evaluate`, then `checkpoint`, then the `terminate` check; when `terminate`
returned `TrainerState.TERMINATE` the loop `break`s, otherwise
`scheduler.step()` runs and the next epoch follows. -/
def fitAux (term : Nat → Option TrainerState) (numBatches : Nat) :
    Nat → Nat → List Event
  | _, 0 => []
  | epoch, Nat.succ rem =>
      fit_epochTrace epoch numBatches
        ++ [Event.evaluateStage epoch, Event.checkpointStage epoch,
            Event.terminateCheck epoch]
        ++ (if term epoch = some TrainerState.TERMINATE then []
            else Event.schedulerStep epoch :: fitAux term numBatches (epoch + 1) rem)

/-- The trace of `Trainer.fit()` (lines 120-141), with
`num_epochs = config.num_epochs` (line 83) and `numBatches` batches per
training pass; `term e` is the value `self.terminate(...)` returns at epoch
`e` (`none` is Python `None`, the default). -/
def fitTrace (term : Nat → Option TrainerState) (numBatches num_epochs : Nat) :
    List Event :=
  fitAux term numBatches 0 num_epochs

/-- The full (not terminated early) epoch blocks for epochs
`start, start+1, ..., start+rem-1`: each is a training pass followed by
`evaluate`, `checkpoint`, the `terminate` check and `scheduler.step()`. -/
def fullRunFrom (numBatches : Nat) : Nat → Nat → List Event
  | _, 0 => []
  | start, Nat.succ rem =>
      (fit_epochTrace start numBatches
        ++ [Event.evaluateStage start, Event.checkpointStage start,
            Event.terminateCheck start, Event.schedulerStep start])
        ++ fullRunFrom numBatches (start + 1) rem

/-- Modelled from the spec: the running-average meter of `kornia/metrics`
(not included in the sources), which "accumulates a scalar metric (e.g.,
loss) over a batch stream and exposes current/average values": `update(val,
n)` stores `val`, adds `val * n` to the sum and `n` to the count, and sets
the average to `sum / count`.  Scalars are rationals. -/
structure AverageMeter : Type where
  val : Rat
  avg : Rat
  sum : Rat
  count : Nat
  deriving DecidableEq, Repr

/-- A freshly constructed meter: all fields reset to zero. -/
def AverageMeter.new : AverageMeter := ⟨0, 0, 0, 0⟩

/-- `AverageMeter.update(val, n)`. -/
def AverageMeter.update (m : AverageMeter) (v : Rat) (n : Nat) : AverageMeter :=
  let sum := m.sum + v * (n : Rat)
  let count := m.count + n
  ⟨v, sum / (count : Rat), sum, count⟩

/-- Apply a sequence of `(value, count)` updates to a meter in order. -/
def runUpdates (m : AverageMeter) : List (Rat × Nat) → AverageMeter
  | [] => m
  | (v, n) :: rest => runUpdates (m.update v n) rest

/-- Whether an event is a validation pass (`self.evaluate()`). -/
def Event.isEvaluate : Event → Bool
  | Event.evaluateStage _ => true
  | _ => false

/-- The events of batch `b` of epoch `e` that touch gradients or use them:
`zero_grad`, the forward pass, the loss, `backward` and `optimizer.step()`. -/
def isGradStage (e b : Nat) : Event → Bool
  | Event.zeroGrad e' b' => e' == e && b' == b
  | Event.modelForward e' b' => e' == e && b' == b
  | Event.criterionLoss e' b' => e' == e && b' == b
  | Event.backwardStage e' b' => e' == e && b' == b
  | Event.optimizerStep e' b' => e' == e && b' == b
  | _ => false

/-- The events of epoch `e` that clear or consume accumulated gradients:
`zero_grad` and `optimizer.step()` of any batch. -/
def isGradBoundary (e : Nat) : Event → Bool
  | Event.zeroGrad e' _ => e' == e
  | Event.optimizerStep e' _ => e' == e
  | _ => false

/-- The alternation `zero_grad(0), step(0), zero_grad(1), step(1), ...` over
the first `n` batches of epoch `e`. -/
def gradBoundarySeq (e : Nat) : Nat → List Event
  | 0 => []
  | Nat.succ b => gradBoundarySeq e b ++ [Event.zeroGrad e b, Event.optimizerStep e b]

/-- A concrete `terminate` stage that never requests termination (the
default's behaviour: it returns `None`). -/
def neverTerm : Nat → Option TrainerState := fun _ => none

/-- A concrete `terminate` stage returning `TERMINATE` exactly at epoch `k`. -/
def termAt (k : Nat) : Nat → Option TrainerState :=
  fun e => if e = k then some TrainerState.TERMINATE else none

/-! ### Helper lemmas: which epoch each trace event belongs to -/

/-- Every event emitted by `fit_epoch(e)` carries epoch index `e`. -/
theorem epoch_mem_fit_epochTrace (e n : Nat) :
    ∀ ev ∈ fit_epochTrace e n, ev.epoch = e := by
  induction n with
  | zero => intro ev h; simp [fit_epochTrace] at h
  | succ b ih =>
    intro ev h
    rw [fit_epochTrace, List.mem_append] at h
    rcases h with h | h
    · exact ih ev h
    · simp only [batchEvents, List.mem_cons, List.not_mem_nil, or_false] at h
      rcases h with h | h | h | h | h | h | h | h <;> subst h <;> rfl

/-- Filtering the events of epoch `e` out of `fit_epoch(e)`'s trace keeps it
whole. -/
theorem filter_fit_epochTrace_self (e n : Nat) :
    (fit_epochTrace e n).filter (fun ev => ev.epoch == e) = fit_epochTrace e n := by
  rw [List.filter_eq_self]
  intro ev h
  simp [epoch_mem_fit_epochTrace e n ev h]

/-- `fit_epoch(e')` emits no event of a different epoch `e`. -/
theorem filter_fit_epochTrace_ne (e e' n : Nat) (h : e' ≠ e) :
    (fit_epochTrace e' n).filter (fun ev => ev.epoch == e) = [] := by
  rw [List.filter_eq_nil_iff]
  intro ev hm
  simp [epoch_mem_fit_epochTrace e' n ev hm, h]

/-- Every event of the loop's remaining iterations belongs to epoch `start`
or later. -/
theorem epoch_mem_fitAux (term : Nat → Option TrainerState) (n : Nat) :
    ∀ rem start, ∀ ev ∈ fitAux term n start rem, start ≤ ev.epoch := by
  intro rem
  induction rem with
  | zero => intro start ev h; simp [fitAux] at h
  | succ rem ih =>
    intro start ev h
    rw [fitAux, List.append_assoc, List.mem_append] at h
    rcases h with h | h
    · exact Nat.le_of_eq (epoch_mem_fit_epochTrace start n ev h).symm
    · rw [List.mem_append] at h
      rcases h with h | h
      · simp only [List.mem_cons, List.not_mem_nil, or_false] at h
        rcases h with h | h | h <;> subst h <;> exact Nat.le_refl _
      · by_cases ht : term start = some TrainerState.TERMINATE
        · rw [if_pos ht] at h; simp at h
        · rw [if_neg ht, List.mem_cons] at h
          rcases h with h | h
          · subst h; exact Nat.le_refl _
          · exact Nat.le_trans (Nat.le_succ start) (ih (start + 1) ev h)

/-- The loop's iterations from epoch `start` on emit no event of an earlier
epoch `e`. -/
theorem filter_fitAux_lt (term : Nat → Option TrainerState) (n e rem start : Nat)
    (h : e < start) :
    (fitAux term n start rem).filter (fun ev => ev.epoch == e) = [] := by
  rw [List.filter_eq_nil_iff]
  intro ev hm
  have := epoch_mem_fitAux term n rem start ev hm
  simp only [beq_iff_eq]
  omega

/-- The events of epoch `e` in the loop's remaining iterations, when epoch
`e` is reached (it is in range and no earlier epoch terminated): the training
pass, then `evaluate`, `checkpoint`, the `terminate` check, and
`scheduler.step()` unless `terminate` requested termination. -/
theorem filter_fitAux (term : Nat → Option TrainerState) (n e : Nat) :
    ∀ rem start, start ≤ e → e < start + rem →
    (∀ e', start ≤ e' → e' < e → term e' ≠ some TrainerState.TERMINATE) →
    (fitAux term n start rem).filter (fun ev => ev.epoch == e) =
      fit_epochTrace e n
        ++ [Event.evaluateStage e, Event.checkpointStage e, Event.terminateCheck e]
        ++ (if term e = some TrainerState.TERMINATE then []
            else [Event.schedulerStep e]) := by
  intro rem
  induction rem with
  | zero => intro start h1 h2 _; omega
  | succ rem ih =>
    intro start h1 h2 hterm
    rw [fitAux]
    rcases Nat.eq_or_lt_of_le h1 with heq | hlt
    · subst heq
      rw [List.filter_append, List.filter_append, filter_fit_epochTrace_self]
      by_cases ht : term start = some TrainerState.TERMINATE
      · rw [if_pos ht, if_pos ht]
        simp [Event.epoch]
      · rw [if_neg ht, if_neg ht]
        simp only [List.filter_cons, List.filter_nil]
        rw [filter_fitAux_lt term n start rem (start + 1) (Nat.lt_succ_self start)]
        simp [Event.epoch]
    · have ht : term start ≠ some TrainerState.TERMINATE :=
        hterm start (Nat.le_refl start) hlt
      rw [if_neg ht, List.filter_append, List.filter_append,
        filter_fit_epochTrace_ne e start n (Nat.ne_of_lt hlt)]
      have hne : (start == e) = false := by simp; omega
      have htail := ih (start + 1) hlt (by omega)
        (fun e' he1 he2 => hterm e' (by omega) he2)
      simp only [List.filter_cons, List.filter_nil]
      rw [htail]
      simp [Event.epoch, hne]

/-- The training pass emits no `evaluate` event. -/
theorem evaluate_not_mem_fit_epochTrace (e e' n : Nat) :
    Event.evaluateStage e ∉ fit_epochTrace e' n := by
  induction n with
  | zero => simp [fit_epochTrace]
  | succ b ih =>
    rw [fit_epochTrace, List.mem_append]
    rintro (h | h)
    · exact ih h
    · simp [batchEvents] at h

/-- Epoch `e`'s validation pass runs in the loop's remaining iterations
exactly when `e` is in range and no epoch from `start` up to `e` (exclusive)
requested termination. -/
theorem evaluate_mem_fitAux (term : Nat → Option TrainerState) (n e : Nat) :
    ∀ rem start,
    (Event.evaluateStage e ∈ fitAux term n start rem ↔
      start ≤ e ∧ e < start + rem ∧
        ∀ e', start ≤ e' → e' < e → term e' ≠ some TrainerState.TERMINATE) := by
  intro rem
  induction rem with
  | zero =>
    intro start
    simp only [fitAux, List.not_mem_nil, false_iff]
    omega
  | succ rem ih =>
    intro start
    rw [fitAux, List.append_assoc, List.mem_append, List.mem_append]
    have hnotrain : Event.evaluateStage e ∉ fit_epochTrace start n :=
      evaluate_not_mem_fit_epochTrace e start n
    constructor
    · rintro (h | h | h)
      · exact absurd h hnotrain
      · simp only [List.mem_cons, List.not_mem_nil, or_false] at h
        rcases h with h | h | h <;> cases h
        refine ⟨Nat.le_refl e, by omega, ?_⟩
        intro e' he1 he2; omega
      · by_cases ht : term start = some TrainerState.TERMINATE
        · rw [if_pos ht] at h; simp at h
        · rw [if_neg ht, List.mem_cons] at h
          rcases h with h | h
          · cases h
          · have := (ih (start + 1)).1 h
            refine ⟨by omega, by omega, ?_⟩
            intro e' he1 he2
            rcases Nat.eq_or_lt_of_le he1 with rfl | hgt
            · exact ht
            · exact this.2.2 e' (by omega) he2
    · rintro ⟨h1, h2, h3⟩
      rcases Nat.eq_or_lt_of_le h1 with rfl | hlt
      · exact Or.inr (Or.inl (by simp))
      · have ht : term start ≠ some TrainerState.TERMINATE :=
          h3 start (Nat.le_refl start) hlt
        refine Or.inr (Or.inr ?_)
        rw [if_neg ht, List.mem_cons]
        exact Or.inr ((ih (start + 1)).2
          ⟨by omega, by omega, fun e' he1 he2 => h3 e' (by omega) he2⟩)

/-! ### Helper lemmas: the overall shape of a run -/

/-- When no epoch in range requests termination, the loop runs every
remaining iteration in full. -/
theorem fitAux_eq_fullRunFrom (term : Nat → Option TrainerState) (n : Nat) :
    ∀ rem start,
    (∀ e, start ≤ e → e < start + rem → term e ≠ some TrainerState.TERMINATE) →
    fitAux term n start rem = fullRunFrom n start rem := by
  intro rem
  induction rem with
  | zero => intro start _; rfl
  | succ rem ih =>
    intro start h
    rw [fitAux, fullRunFrom, if_neg (h start (Nat.le_refl start) (by omega)),
      ih (start + 1) (fun e h1 h2 => h e (by omega) (by omega))]
    simp

/-- When epoch `s` is the first epoch in range to request termination, the
run is the full blocks before `s` followed by epoch `s`'s training pass,
`evaluate`, `checkpoint` and the `terminate` check — and nothing more: no
`scheduler.step()` for epoch `s` and no later epoch. -/
theorem fitAux_eq_terminated (term : Nat → Option TrainerState) (n : Nat) :
    ∀ rem start s, start ≤ s → s < start + rem →
    (∀ e, start ≤ e → e < s → term e ≠ some TrainerState.TERMINATE) →
    term s = some TrainerState.TERMINATE →
    fitAux term n start rem =
      fullRunFrom n start (s - start) ++ fit_epochTrace s n
        ++ [Event.evaluateStage s, Event.checkpointStage s,
            Event.terminateCheck s] := by
  intro rem
  induction rem with
  | zero => intro start s h1 h2 _ _; omega
  | succ rem ih =>
    intro start s h1 h2 hno ht
    rcases Nat.eq_or_lt_of_le h1 with rfl | hlt
    · rw [fitAux, if_pos ht]
      simp [fullRunFrom, Nat.sub_self]
    · have hts : term start ≠ some TrainerState.TERMINATE :=
        hno start (Nat.le_refl start) hlt
      rw [fitAux, if_neg hts,
        ih (start + 1) s (by omega) (by omega)
          (fun e he1 he2 => hno e (by omega) he2) ht]
      have hsub : s - start = (s - (start + 1)) + 1 := by omega
      rw [hsub, fullRunFrom]
      simp

/-! ### Helper lemmas: counting scheduler steps -/

/-- The training pass never calls `scheduler.step()`. -/
theorem countP_sched_fit_epochTrace (e n : Nat) :
    (fit_epochTrace e n).countP Event.isSchedulerStep = 0 := by
  induction n with
  | zero => rfl
  | succ b ih =>
    rw [fit_epochTrace, List.countP_append, ih]
    simp [batchEvents, Event.isSchedulerStep]

/-- A run of `rem` full epoch blocks calls `scheduler.step()` once per
block. -/
theorem countP_sched_fullRunFrom (n : Nat) :
    ∀ rem start, (fullRunFrom n start rem).countP Event.isSchedulerStep = rem := by
  intro rem
  induction rem with
  | zero => intro start; rfl
  | succ rem ih =>
    intro start
    rw [fullRunFrom, List.countP_append, ih (start + 1), List.countP_append,
      countP_sched_fit_epochTrace]
    simp [Event.isSchedulerStep, Nat.add_comm]

/-- The training pass contains no `scheduler.step()` event of any epoch. -/
theorem count_schedStep_fit_epochTrace (e e' n : Nat) :
    (fit_epochTrace e n).count (Event.schedulerStep e') = 0 := by
  induction n with
  | zero => rfl
  | succ b ih =>
    rw [fit_epochTrace, List.count_append, ih]
    simp [batchEvents, List.count_cons]

/-- In `rem` full epoch blocks starting at epoch `start`, epoch `e'`'s
`scheduler.step()` event appears exactly once when `e'` is one of those
epochs, else not at all. -/
theorem count_schedStep_fullRunFrom (n e' : Nat) :
    ∀ rem start, (fullRunFrom n start rem).count (Event.schedulerStep e') =
      if start ≤ e' ∧ e' < start + rem then 1 else 0 := by
  intro rem
  induction rem with
  | zero =>
    intro start
    have h0 : ¬(start ≤ e' ∧ e' < start + 0) := by omega
    rw [if_neg h0]
    rfl
  | succ rem ih =>
    intro start
    rw [fullRunFrom, List.count_append, ih (start + 1), List.count_append,
      count_schedStep_fit_epochTrace]
    by_cases hse : start = e'
    · subst hse
      have h2 : ¬(start + 1 ≤ start ∧ start < start + 1 + rem) := by omega
      have h3 : start ≤ start ∧ start < start + (rem + 1) := by omega
      simp [List.count_cons, h2, h3]
    · have hiff : (start + 1 ≤ e' ∧ e' < start + 1 + rem) ↔
          (start ≤ e' ∧ e' < start + (rem + 1)) := by omega
      simp [List.count_cons, hiff, hse]

/-! ### Helper definitions and lemmas: gradient-related stages of a batch -/

/-- Batch `b`'s gradient-related events within one batch block. -/
theorem filter_gradStage_batchEvents (e b e' b' : Nat) :
    (batchEvents e' b').filter (isGradStage e b) =
      if e' = e ∧ b' = b then
        [Event.zeroGrad e b, Event.modelForward e b, Event.criterionLoss e b,
         Event.backwardStage e b, Event.optimizerStep e b]
      else [] := by
  by_cases h : e' = e ∧ b' = b
  · rcases h with ⟨rfl, rfl⟩
    simp [batchEvents, isGradStage]
  · rw [if_neg h]
    have hne : ¬(e' = e ∧ b' = b) := h
    simp only [batchEvents, List.filter_cons, List.filter_nil, isGradStage]
    have : (e' == e && b' == b) = false := by
      simp only [Bool.and_eq_false_iff, beq_eq_false_iff_ne, ne_eq]
      by_cases he : e' = e
      · exact Or.inr (fun hb => hne ⟨he, hb⟩)
      · exact Or.inl he
    simp [this]

/-- A training pass over at most `b` batches contains none of batch `b`'s
gradient-related events. -/
theorem filter_gradStage_fit_epochTrace_le (e b : Nat) :
    ∀ n, n ≤ b → (fit_epochTrace e n).filter (isGradStage e b) = [] := by
  intro n
  induction n with
  | zero => intro _; rfl
  | succ k ih =>
    intro h
    rw [fit_epochTrace, List.filter_append, filter_gradStage_batchEvents,
      ih (by omega)]
    have hne : ¬k = b := by omega
    simp [hne]

/-- Within one training pass, batch `b`'s gradient-related events are
exactly `zero_grad`, forward, loss, `backward`, `optimizer.step()`, in that
order. -/
theorem filter_gradStage_fit_epochTrace (e b : Nat) :
    ∀ n, b < n →
    (fit_epochTrace e n).filter (isGradStage e b) =
      [Event.zeroGrad e b, Event.modelForward e b, Event.criterionLoss e b,
       Event.backwardStage e b, Event.optimizerStep e b] := by
  intro n
  induction n with
  | zero => intro h; omega
  | succ k ih =>
    intro h
    rw [fit_epochTrace, List.filter_append, filter_gradStage_batchEvents]
    by_cases hk : b = k
    · subst hk
      rw [filter_gradStage_fit_epochTrace_le e b b (Nat.le_refl b)]
      simp
    · have hb : b < k := by omega
      rw [ih hb]
      have hkb : ¬k = b := fun hh => hk hh.symm
      simp [hkb]

/-- A batch block's gradient-boundary events are its `zero_grad` and its
`optimizer.step()`, in that order. -/
theorem filter_gradBoundary_batchEvents (e e' b' : Nat) :
    (batchEvents e' b').filter (isGradBoundary e) =
      if e' = e then [Event.zeroGrad e b', Event.optimizerStep e b'] else [] := by
  by_cases h : e' = e
  · subst h
    simp [batchEvents, isGradBoundary]
  · simp [batchEvents, isGradBoundary, h]

/-- Across one training pass, the gradient-boundary events alternate:
`zero_grad(0), step(0), zero_grad(1), step(1), ...` — every `optimizer.step()`
is immediately preceded (among gradient-boundary events) by its own batch's
`zero_grad`. -/
theorem filter_gradBoundary_fit_epochTrace (e : Nat) :
    ∀ n, (fit_epochTrace e n).filter (isGradBoundary e) = gradBoundarySeq e n := by
  intro n
  induction n with
  | zero => rfl
  | succ k ih =>
    rw [fit_epochTrace, List.filter_append, filter_gradBoundary_batchEvents,
      ih, gradBoundarySeq]
    simp

/-! ### Helper lemmas: callback binding in `Trainer.__init__` -/

/-- When every supplied callback name is whitelisted, the binding loop
succeeds: the attributes are the supplied pairs (most recent first) on top of
the existing ones, and one `setattr` action is performed per pair, in
dictionary order. -/
theorem configureCallbacks_ok {κ : Type} :
    ∀ (cbs attrs0 : List (String × κ)),
    (∀ p ∈ cbs, p.1 ∈ callbacks_whitelist) →
    configureCallbacks attrs0 cbs =
      (Except.ok (cbs.reverse ++ attrs0),
       cbs.map (fun p => InitAction.setattrHook p.1)) := by
  intro cbs
  induction cbs with
  | nil => intro attrs0 _; rfl
  | cons p rest ih =>
    intro attrs0 h
    obtain ⟨n, f⟩ := p
    simp only [configureCallbacks, if_pos (h (n, f) (List.mem_cons_self _ _)),
      ih ((n, f) :: attrs0) (fun q hq => h q (List.mem_cons_of_mem _ hq))]
    simp

/-- A supplied callback name outside the whitelist makes the binding loop
raise. -/
theorem configureCallbacks_error {κ : Type} :
    ∀ (cbs attrs0 : List (String × κ)),
    (∃ p ∈ cbs, p.1 ∉ callbacks_whitelist) →
    ∃ msg, (configureCallbacks attrs0 cbs).1 = Except.error msg := by
  intro cbs
  induction cbs with
  | nil => intro attrs0 h; simp at h
  | cons p rest ih =>
    intro attrs0 h
    obtain ⟨n, f⟩ := p
    by_cases hn : n ∈ callbacks_whitelist
    · have hrest : ∃ q ∈ rest, q.1 ∉ callbacks_whitelist := by
        rcases h with ⟨q, hq, hbad⟩
        rcases List.mem_cons.mp hq with rfl | hq'
        · exact absurd hn hbad
        · exact ⟨q, hq', hbad⟩
      rcases ih ((n, f) :: attrs0) hrest with ⟨msg, hm⟩
      refine ⟨msg, ?_⟩
      simp only [configureCallbacks, if_pos hn]
      exact hm
    · exact ⟨"Not supported: " ++ n ++ ".",
        by simp only [configureCallbacks, if_neg hn]⟩

/-- The binding loop only ever `setattr`s whitelisted names (the check comes
before the binding). -/
theorem configureCallbacks_actions_whitelisted {κ : Type} :
    ∀ (cbs attrs0 : List (String × κ)),
    ∀ a ∈ (configureCallbacks attrs0 cbs).2,
    ∀ nm, a = InitAction.setattrHook nm → nm ∈ callbacks_whitelist := by
  intro cbs
  induction cbs with
  | nil => intro attrs0 a ha; simp [configureCallbacks] at ha
  | cons p rest ih =>
    intro attrs0 a ha nm heq
    obtain ⟨n, f⟩ := p
    by_cases hn : n ∈ callbacks_whitelist
    · simp only [configureCallbacks, if_pos hn] at ha
      rcases List.mem_cons.mp ha with rfl | ha'
      · injection heq with he
        exact he ▸ hn
      · exact ih ((n, f) :: attrs0) a ha' nm heq
    · simp only [configureCallbacks, if_neg hn] at ha
      simp at ha

/-- With distinct keys, `find?` retrieves the pair a key owns. -/
theorem find?_of_nodup_keys {κ : Type} :
    ∀ (l : List (String × κ)) (name : String) (f : κ),
    (l.map Prod.fst).Nodup → (name, f) ∈ l →
    l.find? (fun p => p.1 == name) = some (name, f) := by
  intro l
  induction l with
  | nil => intro name f _ h; simp at h
  | cons q rest ih =>
    intro name f hnd hm
    obtain ⟨qn, qf⟩ := q
    rw [List.map_cons, List.nodup_cons] at hnd
    rcases List.mem_cons.mp hm with heq | hm'
    · cases heq
      rw [List.find?_cons_of_pos _ (by simp)]
    · have hne : qn ≠ name := by
        intro h
        exact hnd.1 (h ▸ List.mem_map.mpr ⟨(name, f), hm', rfl⟩)
      rw [List.find?_cons_of_neg _ (by simp [hne])]
      exact ih name f hnd.2 hm'

/-- `find?` misses a key that owns no pair. -/
theorem find?_none_of_not_mem_keys {κ : Type} (l : List (String × κ))
    (name : String) (h : name ∉ l.map Prod.fst) :
    l.find? (fun p => p.1 == name) = none := by
  rw [List.find?_eq_none]
  intro p hp hpe
  simp only [beq_iff_eq] at hpe
  exact h (List.mem_map.mpr ⟨p, hp, hpe⟩)

/-! ### Helper lemmas: the running-average meter -/

/-- Running a sequence of updates adds the count-weighted values to the sum
and the counts to the count. -/
theorem runUpdates_sum_count (us : List (Rat × Nat)) :
    ∀ m : AverageMeter,
    (runUpdates m us).sum = m.sum + (us.map (fun p => p.1 * (p.2 : Rat))).sum
    ∧ (runUpdates m us).count = m.count + (us.map Prod.snd).sum := by
  induction us with
  | nil => intro m; simp [runUpdates]
  | cons u rest ih =>
    intro m
    obtain ⟨v, k⟩ := u
    rw [runUpdates]
    rcases ih (m.update v k) with ⟨h1, h2⟩
    constructor
    · rw [h1]; simp [AverageMeter.update]; ring
    · rw [h2]; simp [AverageMeter.update]; omega

/-- After at least one update, the meter's value is the last update's value
and its average is its sum over its count. -/
theorem runUpdates_val_avg (us : List (Rat × Nat)) :
    ∀ (m : AverageMeter) (h : us ≠ []),
    (runUpdates m us).val = (us.getLast h).1
    ∧ (runUpdates m us).avg =
        (runUpdates m us).sum / ((runUpdates m us).count : Rat) := by
  induction us with
  | nil => intro m h; exact absurd rfl h
  | cons u rest ih =>
    intro m h
    obtain ⟨v, k⟩ := u
    by_cases hr : rest = []
    · subst hr
      simp [runUpdates, AverageMeter.update]
    · rw [runUpdates]
      rcases ih (m.update v k) hr with ⟨h1, h2⟩
      refine ⟨?_, h2⟩
      rw [h1, List.getLast_cons hr]

/-- The training pass never runs the validation stage. -/
theorem countP_evaluate_fit_epochTrace (e n : Nat) :
    (fit_epochTrace e n).countP Event.isEvaluate = 0 := by
  induction n with
  | zero => rfl
  | succ b ih =>
    rw [fit_epochTrace, List.countP_append, ih]
    simp [batchEvents, Event.isEvaluate]

/-- `rem` full epoch blocks run the validation stage once per epoch. -/
theorem countP_evaluate_fullRunFrom (n : Nat) :
    ∀ rem start, (fullRunFrom n start rem).countP Event.isEvaluate = rem := by
  intro rem
  induction rem with
  | zero => intro start; rfl
  | succ rem ih =>
    intro start
    rw [fullRunFrom, List.countP_append, ih (start + 1), List.countP_append,
      countP_evaluate_fit_epochTrace]
    simp [Event.isEvaluate, Nat.add_comm]

/-! ### The claims -/

/-- C1: In every epoch `e` that `Trainer.fit` reaches, the lifecycle stages
of that epoch execute in the fixed order and nowhere else: per training
batch (in dataloader order) `zero_grad`, then `preprocess`, then
`augmentations`, then the model forward pass, then the loss (criterion),
then `backward`, then `optimizer.step()` (then the loss-meter update); after
the training pass `evaluate`, then `checkpoint`, then the terminate check,
then — unless terminating — `scheduler.step()`.  The filtered trace equality
says the events of epoch `e` are exactly this sequence in exactly this
order. -/
theorem fit_stage_order (term : Nat → Option TrainerState) (n N e : Nat)
    (hN : e < N) (hterm : ∀ e' < e, term e' ≠ some TrainerState.TERMINATE) :
    (fitTrace term n N).filter (fun ev => ev.epoch == e) =
      fit_epochTrace e n
        ++ [Event.evaluateStage e, Event.checkpointStage e, Event.terminateCheck e]
        ++ (if term e = some TrainerState.TERMINATE then []
            else [Event.schedulerStep e]) :=
  filter_fitAux term n e N 0 (Nat.zero_le e) (by omega)
    (fun e' _ he => hterm e' he)

/-- Witness for C1 at `term = neverTerm`, one batch, one epoch, epoch 0. -/
theorem fit_stage_order_witness :
    ((0 : Nat) < 1 ∧ ∀ e' < 0, neverTerm e' ≠ some TrainerState.TERMINATE)
    ∧ (fitTrace neverTerm 1 1).filter (fun ev => ev.epoch == 0) =
      fit_epochTrace 0 1
        ++ [Event.evaluateStage 0, Event.checkpointStage 0, Event.terminateCheck 0]
        ++ (if neverTerm 0 = some TrainerState.TERMINATE then []
            else [Event.schedulerStep 0]) :=
  ⟨⟨Nat.zero_lt_one, fun e' he => absurd he (Nat.not_lt_zero e')⟩,
   fit_stage_order neverTerm 1 1 0 Nat.zero_lt_one
     (fun e' he => absurd he (Nat.not_lt_zero e'))⟩

/-- C2: When the terminate stage never requests termination, `Trainer.fit`
runs exactly `num_epochs = config.num_epochs` epochs (0 through
`num_epochs - 1`): the trace is the concatenation of the full epoch blocks —
each one training pass (`fit_epoch`) followed by one validation pass
(`evaluate`), then `checkpoint`, the terminate check and `scheduler.step()` —
and the validation pass runs exactly `num_epochs` times. -/
theorem fit_runs_all_epochs (term : Nat → Option TrainerState)
    (numBatches num_epochs : Nat)
    (h : ∀ e, term e ≠ some TrainerState.TERMINATE) :
    fitTrace term numBatches num_epochs = fullRunFrom numBatches 0 num_epochs
    ∧ (fitTrace term numBatches num_epochs).countP Event.isEvaluate = num_epochs := by
  have heq : fitTrace term numBatches num_epochs = fullRunFrom numBatches 0 num_epochs :=
    fitAux_eq_fullRunFrom term numBatches num_epochs 0 (fun e _ _ => h e)
  refine ⟨heq, ?_⟩
  rw [heq, countP_evaluate_fullRunFrom]

/-- Witness for C2 at `term = neverTerm`, one batch, two epochs. -/
theorem fit_runs_all_epochs_witness :
    (∀ e, neverTerm e ≠ some TrainerState.TERMINATE)
    ∧ (fitTrace neverTerm 1 2 = fullRunFrom 1 0 2
       ∧ (fitTrace neverTerm 1 2).countP Event.isEvaluate = 2) :=
  ⟨fun _ h => Option.noConfusion h,
   fit_runs_all_epochs neverTerm 1 2 (fun _ h => Option.noConfusion h)⟩

/-- C4: `Trainer.fit` reaches epoch `e` (runs its validation pass) exactly
when `e` is within `num_epochs` and the terminate stage returned something
other than `TrainerState.TERMINATE` at every earlier epoch: the loop stops
at the epoch where `terminate` returns `TERMINATE` and continues past every
epoch where it returns any other value. -/
theorem fit_stops_iff_terminate (term : Nat → Option TrainerState)
    (numBatches num_epochs e : Nat) :
    Event.evaluateStage e ∈ fitTrace term numBatches num_epochs ↔
      e < num_epochs ∧ ∀ e' < e, term e' ≠ some TrainerState.TERMINATE := by
  have h := evaluate_mem_fitAux term numBatches e num_epochs 0
  rw [fitTrace]
  rw [h]
  constructor
  · rintro ⟨_, h2, h3⟩
    exact ⟨by omega, fun e' he => h3 e' (Nat.zero_le e') he⟩
  · rintro ⟨h1, h2⟩
    exact ⟨Nat.zero_le e, by omega, fun e' _ he => h2 e' he⟩

/-- C6: The default `preprocess` and `augmentations` stages are identities,
and the default `evaluate`, `checkpoint` and `terminate` stages return
`None`. -/
theorem default_hooks_identity {α μ ω : Type} (x : α) (m : μ) (ep : Nat)
    (vs : Option ω) :
    Trainer.preprocess x = x ∧ Trainer.augmentations x = x
    ∧ (Trainer.evaluate : Option ω) = none
    ∧ Trainer.checkpoint m ep vs = none
    ∧ Trainer.terminate m ep vs = none :=
  ⟨rfl, rfl, rfl, rfl, rfl⟩

/-- C8: When the `accelerate` library is not importable, `Trainer.__init__`
raises `ModuleNotFoundError` and performs no other action: nothing is
prepared and no callback is bound. -/
theorem init_without_accelerate {κ : Type} (cbs : List (String × κ)) :
    trainerInit false cbs =
      (Except.error (PyError.moduleNotFoundError
        "accelerate library is not installed: pip install kornia[x]"),
       ([] : List InitAction)) := rfl

/-- C9: When the run terminates at (0-based) epoch `e` — the first epoch at
which the terminate stage returns `TERMINATE` — `scheduler.step()` has run
exactly `e` times: once per completed non-terminating epoch and not for
epoch `e` itself. -/
theorem scheduler_step_count (term : Nat → Option TrainerState)
    (numBatches num_epochs e : Nat) (h1 : e < num_epochs)
    (h2 : ∀ e' < e, term e' ≠ some TrainerState.TERMINATE)
    (h3 : term e = some TrainerState.TERMINATE) :
    (fitTrace term numBatches num_epochs).countP Event.isSchedulerStep = e
    ∧ ∀ e', (fitTrace term numBatches num_epochs).count (Event.schedulerStep e') =
        if e' < e then 1 else 0 := by
  have hb := fitAux_eq_terminated term numBatches num_epochs 0 e (Nat.zero_le e)
    (by omega) (fun x _ hx2 => h2 x hx2) h3
  rw [fitTrace, hb]
  constructor
  · rw [List.countP_append, List.countP_append, countP_sched_fullRunFrom,
      countP_sched_fit_epochTrace]
    simp [Event.isSchedulerStep]
  · intro e'
    rw [List.count_append, List.count_append, count_schedStep_fullRunFrom,
      count_schedStep_fit_epochTrace]
    have hiff : (0 ≤ e' ∧ e' < 0 + (e - 0)) ↔ e' < e := by omega
    simp [hiff, List.count_cons]

/-- Witness for C9 at `term = termAt 1`, one batch, three epochs,
termination at epoch 1. -/
theorem scheduler_step_count_witness :
    ((1 : Nat) < 3 ∧ (∀ e' < 1, termAt 1 e' ≠ some TrainerState.TERMINATE)
      ∧ termAt 1 1 = some TrainerState.TERMINATE)
    ∧ ((fitTrace (termAt 1) 1 3).countP Event.isSchedulerStep = 1
       ∧ ∀ e', (fitTrace (termAt 1) 1 3).count (Event.schedulerStep e') =
          if e' < 1 then 1 else 0) :=
  ⟨⟨by decide,
    fun e' he => by
      have hne : e' ≠ 1 := by omega
      simp [termAt, hne],
    by simp [termAt]⟩,
   scheduler_step_count (termAt 1) 1 3 1 (by decide)
     (fun e' he => by
       have hne : e' ≠ 1 := by omega
       simp [termAt, hne])
     (by simp [termAt])⟩

/-- C10: In every training batch `b` of `fit_epoch`, the gradient-related
events are exactly `zero_grad`, then forward, then loss, then `backward`,
then `optimizer.step()` — `zero_grad` comes first — and across the whole
training pass the gradient-clearing and gradient-consuming events alternate
as `zero_grad(0), step(0), zero_grad(1), step(1), ...`, so each batch's
`optimizer.step()` is preceded by its own batch's `zero_grad` with no other
`step` in between: gradients never carry over from one batch to the next
batch's step. -/
theorem zero_grad_before_step (e numBatches b : Nat) (hb : b < numBatches) :
    (fit_epochTrace e numBatches).filter (isGradStage e b) =
      [Event.zeroGrad e b, Event.modelForward e b, Event.criterionLoss e b,
       Event.backwardStage e b, Event.optimizerStep e b]
    ∧ (fit_epochTrace e numBatches).filter (isGradBoundary e) =
      gradBoundarySeq e numBatches :=
  ⟨filter_gradStage_fit_epochTrace e b numBatches hb,
   filter_gradBoundary_fit_epochTrace e numBatches⟩

/-- Witness for C10 at epoch 0, two batches, batch 0. -/
theorem zero_grad_before_step_witness :
    (0 : Nat) < 2
    ∧ ((fit_epochTrace 0 2).filter (isGradStage 0 0) =
        [Event.zeroGrad 0 0, Event.modelForward 0 0, Event.criterionLoss 0 0,
         Event.backwardStage 0 0, Event.optimizerStep 0 0]
       ∧ (fit_epochTrace 0 2).filter (isGradBoundary 0) = gradBoundarySeq 0 2) :=
  ⟨by decide, zero_grad_before_step 0 2 0 (by decide)⟩

/-- The constructor's action list never records a `setattr` under a
non-whitelisted name. -/
theorem trainerInit_actions_whitelisted {κ : Type} (cbs : List (String × κ)) :
    ∀ a ∈ (trainerInit true cbs).2, ∀ nm, a = InitAction.setattrHook nm →
      nm ∈ callbacks_whitelist := by
  intro a ha nm heq
  rcases hcfg : configureCallbacks ([] : List (String × κ)) cbs with ⟨r, acts⟩
  have h2 : (trainerInit true cbs).2 =
      [InitAction.prepareModel, InitAction.prepareTrainDataloader,
       InitAction.prepareValidDataloader, InitAction.criterionTo,
       InitAction.prepareOptimizer] ++ acts := by
    cases r <;> simp [trainerInit, hcfg]
  rw [h2, List.mem_append] at ha
  rcases ha with hp | hacts
  · simp only [List.mem_cons, List.not_mem_nil, or_false] at hp
    rcases hp with rfl | rfl | rfl | rfl | rfl <;> simp at heq
  · exact configureCallbacks_actions_whitelisted cbs [] a
      (by rw [hcfg]; exact hacts) nm heq

/-- C3: `Trainer.__init__` accepts a callbacks dictionary exactly when every
key is one of the six whitelisted stage names (`preprocess`,
`augmentations`, `evaluate`, `fit`, `checkpoint`, `terminate`); a dictionary
with any key outside the whitelist makes it raise `ValueError`, and no hook
is ever bound (`setattr`ed) under a non-whitelisted name. -/
theorem init_accepts_only_whitelisted {κ : Type} (cbs : List (String × κ)) :
    ((∀ p ∈ cbs, p.1 ∈ callbacks_whitelist) ↔
      ∃ attrs, (trainerInit true cbs).1 = Except.ok attrs)
    ∧ ((∃ p ∈ cbs, p.1 ∉ callbacks_whitelist) →
      ∃ msg, (trainerInit true cbs).1 = Except.error (PyError.valueError msg))
    ∧ (∀ a ∈ (trainerInit true cbs).2, ∀ nm, a = InitAction.setattrHook nm →
      nm ∈ callbacks_whitelist) := by
  refine ⟨?_, ?_, trainerInit_actions_whitelisted cbs⟩
  · rcases hcfg : configureCallbacks ([] : List (String × κ)) cbs with ⟨r, acts⟩
    cases r with
    | ok attrs =>
      have hall : ∀ p ∈ cbs, p.1 ∈ callbacks_whitelist := by
        by_contra hbad
        push_neg at hbad
        rcases configureCallbacks_error cbs [] hbad with ⟨msg, hm⟩
        rw [hcfg] at hm
        simp at hm
      exact ⟨fun _ => ⟨attrs, by simp [trainerInit, hcfg]⟩, fun _ => hall⟩
    | error m =>
      have hnall : ¬∀ p ∈ cbs, p.1 ∈ callbacks_whitelist := by
        intro hall
        have hok := configureCallbacks_ok cbs [] hall
        rw [hcfg] at hok
        simp at hok
      refine ⟨fun h => absurd h hnall, ?_⟩
      rintro ⟨attrs, hok⟩
      have : (trainerInit true cbs).1 = Except.error (PyError.valueError m) := by
        simp [trainerInit, hcfg]
      rw [this] at hok
      simp at hok
  · intro hbad
    rcases hcfg : configureCallbacks ([] : List (String × κ)) cbs with ⟨r, acts⟩
    cases r with
    | ok attrs =>
      rcases configureCallbacks_error cbs [] hbad with ⟨msg, hm⟩
      rw [hcfg] at hm
      simp at hm
    | error m =>
      exact ⟨m, by simp [trainerInit, hcfg]⟩

/-- C5: After a successful construction, every whitelisted stage name
supplied in the callbacks dictionary resolves — by attribute lookup, which
is how `self.preprocess`, `self.evaluate`, etc. are called during `fit` —
to the caller-supplied function, and every stage name not supplied still
resolves to the default implementation. -/
theorem callbacks_override {κ : Type} (cbs attrs : List (String × κ))
    (hnd : (cbs.map Prod.fst).Nodup)
    (hok : (configureCallbacks ([] : List (String × κ)) cbs).1 = Except.ok attrs)
    (name : String) (_hw : name ∈ callbacks_whitelist) (deflt : κ) :
    (∀ f, (name, f) ∈ cbs → getattrD attrs name deflt = f)
    ∧ (name ∉ cbs.map Prod.fst → getattrD attrs name deflt = deflt) := by
  have hall : ∀ p ∈ cbs, p.1 ∈ callbacks_whitelist := by
    by_contra hbad
    push_neg at hbad
    rcases configureCallbacks_error cbs [] hbad with ⟨msg, hm⟩
    rw [hok] at hm
    simp at hm
  have hattrs : attrs = cbs.reverse := by
    have hco := configureCallbacks_ok cbs [] hall
    have : (configureCallbacks ([] : List (String × κ)) cbs).1 =
        Except.ok (cbs.reverse ++ []) := by rw [hco]
    rw [hok] at this
    simp at this
    exact this
  subst hattrs
  constructor
  · intro f hf
    have hnd' : (cbs.reverse.map Prod.fst).Nodup := by
      rw [List.map_reverse]
      exact List.nodup_reverse.mpr hnd
    rw [getattrD,
      find?_of_nodup_keys cbs.reverse name f hnd' (List.mem_reverse.mpr hf)]
  · intro hnm
    rw [getattrD, find?_none_of_not_mem_keys]
    rw [List.map_reverse, List.mem_reverse]
    exact hnm

/-- Witness for C5: supplying `preprocess` overrides it and leaves an
unsupplied stage (`evaluate`) at its default. -/
theorem callbacks_override_witness :
    ((([("preprocess", (7 : Nat))].map Prod.fst).Nodup)
      ∧ (configureCallbacks ([] : List (String × Nat)) [("preprocess", 7)]).1 =
          Except.ok [("preprocess", 7)]
      ∧ "preprocess" ∈ callbacks_whitelist)
    ∧ ((∀ f, ("preprocess", f) ∈ [("preprocess", (7 : Nat))] →
          getattrD [("preprocess", 7)] "preprocess" 0 = f)
       ∧ ("preprocess" ∉ [("preprocess", (7 : Nat))].map Prod.fst →
          getattrD [("preprocess", 7)] "preprocess" 0 = 0)) :=
  ⟨⟨by decide, rfl, by decide⟩,
   callbacks_override [("preprocess", 7)] [("preprocess", 7)] (by decide) rfl
     "preprocess" (by decide) 0⟩

/-- C7: After any nonempty sequence of `update(value, count)` calls — one
per training batch, with the batch's scalar loss value and the batch size as
count — the meter's `val` is the most recent update's value and its `avg` is
the count-weighted mean (sum of value times count over sum of counts) of all
updates since the meter was created. -/
theorem averageMeter_val_avg (updates : List (Rat × Nat)) (h : updates ≠ []) :
    (runUpdates AverageMeter.new updates).val = (updates.getLast h).1
    ∧ (runUpdates AverageMeter.new updates).avg =
      (updates.map (fun p => p.1 * (p.2 : Rat))).sum /
        (((updates.map Prod.snd).sum : Nat) : Rat) := by
  rcases runUpdates_val_avg updates AverageMeter.new h with ⟨h1, h2⟩
  rcases runUpdates_sum_count updates AverageMeter.new with ⟨h3, h4⟩
  refine ⟨h1, ?_⟩
  rw [h2, h3, h4]
  simp [AverageMeter.new]

/-- Witness for C7: two updates of count 2 with values 3 and 5 end with
`val = 5` and `avg = 4`. -/
theorem averageMeter_val_avg_witness :
    ([((3 : Rat), 2), ((5 : Rat), 2)] ≠ ([] : List (Rat × Nat)))
    ∧ ((runUpdates AverageMeter.new [((3 : Rat), 2), ((5 : Rat), 2)]).val =
        ([((3 : Rat), 2), ((5 : Rat), 2)].getLast (List.cons_ne_nil _ _)).1
       ∧ (runUpdates AverageMeter.new [((3 : Rat), 2), ((5 : Rat), 2)]).avg =
        ([((3 : Rat), 2), ((5 : Rat), 2)].map (fun p => p.1 * (p.2 : Rat))).sum /
          ((([((3 : Rat), 2), ((5 : Rat), 2)].map Prod.snd).sum : Nat) : Rat)) :=
  ⟨List.cons_ne_nil _ _,
   averageMeter_val_avg [((3 : Rat), 2), ((5 : Rat), 2)] (List.cons_ne_nil _ _)⟩
